import Mathlib

/-!
Verification development for the ORCS workflow core
(`src/orcs/workflow/models.py`, `orchestrator.py`, `controller.py`).

The Python data model and the scheduling functions are shallowly embedded:
dicts become insertion-ordered association lists, in-place mutation becomes
functional update, `datetime.now().isoformat()` becomes an explicit `now`
string parameter, `uuid.uuid4()` becomes an explicit `fresh` string
parameter, and the external Task Executor (`Runner.run` together with
`agent_registry.get_agent`) becomes a function
`exec : String → String → Except String String` from (agent id, input) to
either a final output or a raised exception message.
-/

namespace Orcs

/-- `TaskStatus` from `models.py`. -/
inductive TaskStatus where
  | pending
  | running
  | paused
  | completed
  | failed
deriving DecidableEq, Repr

/-- `WorkflowStatus` from `models.py`. -/
inductive WorkflowStatus where
  | planning
  | ready
  | running
  | paused
  | completed
  | failed
deriving DecidableEq, Repr

/-- The `.value` string of a `TaskStatus` member. -/
def statusValue : TaskStatus → String
  | .pending => "pending"
  | .running => "running"
  | .paused => "paused"
  | .completed => "completed"
  | .failed => "failed"

/-- `TaskStatus(value)`: returns the member for a value string, or `none`
(the Python constructor raises `ValueError`). -/
def statusOfValue : String → Option TaskStatus
  | "pending" => some .pending
  | "running" => some .running
  | "paused" => some .paused
  | "completed" => some .completed
  | "failed" => some .failed
  | _ => none

/-- Values stored in `task.result`: either the executor's `final_output`,
or the `{"error": str(e)}` dict stored by the failure branch of
`WorkflowOrchestrator._execute_task`. -/
inductive TaskResult where
  | output (s : String)
  | errorObj (msg : String)
deriving DecidableEq, Repr

/-- The `Task` object of `models.py` (its `metadata` bag rendered as a
string-to-string association list). -/
structure Task where
  id : String
  title : String
  description : String
  agent_id : String
  dependencies : List String
  status : TaskStatus
  result : Option TaskResult
  created_at : String
  started_at : Option String
  completed_at : Option String
  metadata : List (String × String)
deriving DecidableEq, Repr

/-- A Python dict holding task data, as consumed by `Task.from_dict` and
produced by `Task.to_dict`.  An outer `Option` on a field records whether
the corresponding key is present (`from_dict` tests `.get` / `in`);
`title`, `description` and `agent_id` are accessed unconditionally. -/
structure TaskDict where
  id : Option String
  title : String
  description : String
  agent_id : String
  dependencies : Option (List String)
  status : Option String
  result : Option (Option TaskResult)
  created_at : Option String
  started_at : Option (Option String)
  completed_at : Option (Option String)
  metadata : Option (List (String × String))
deriving DecidableEq, Repr

/-- `Task.__init__`.  `fresh` stands for `str(uuid.uuid4())` and `now` for
`datetime.now().isoformat()`.  `id or str(uuid.uuid4())` takes `fresh`
when `id` is `None` or the (falsy) empty string; `dependencies or []`
takes `[]` when `dependencies` is `None` or the (falsy) empty list. -/
def mkTask (title description agent_id : String) (id : Option String)
    (dependencies : Option (List String)) (fresh now : String) : Task :=
  { id := match id with
      | some s => if s = "" then fresh else s
      | none => fresh
    title := title
    description := description
    agent_id := agent_id
    dependencies := match dependencies with
      | some l => if l = [] then [] else l
      | none => []
    status := .pending
    result := none
    created_at := now
    started_at := none
    completed_at := none
    metadata := [] }

/-- `Task.to_dict`: every key is emitted. -/
def Task.toDict (t : Task) : TaskDict :=
  { id := some t.id
    title := t.title
    description := t.description
    agent_id := t.agent_id
    dependencies := some t.dependencies
    status := some (statusValue t.status)
    result := some t.result
    created_at := some t.created_at
    started_at := some t.started_at
    completed_at := some t.completed_at
    metadata := some t.metadata }

/-- `Task.from_dict`: construct via `Task.__init__`, then overwrite each
field whose key is present.  Returns `none` when `TaskStatus(data["status"])`
raises. -/
def Task.fromDict (d : TaskDict) (fresh now : String) : Option Task :=
  let t0 := mkTask d.title d.description d.agent_id d.id d.dependencies fresh now
  let tst : Option Task :=
    match d.status with
    | none => some t0
    | some s =>
      match statusOfValue s with
      | none => none
      | some st => some { t0 with status := st }
  tst.map fun t1 =>
    let t2 := match d.result with
      | none => t1
      | some r => { t1 with result := r }
    let t3 := match d.created_at with
      | none => t2
      | some c => { t2 with created_at := c }
    let t4 := match d.started_at with
      | none => t3
      | some s => { t3 with started_at := s }
    let t5 := match d.completed_at with
      | none => t4
      | some c => { t4 with completed_at := c }
    match d.metadata with
    | none => t5
    | some m => { t5 with metadata := m }

/-- The `Workflow` object of `models.py`.  `tasks` is the insertion-ordered
task dict rendered as an association list; `results` likewise; of the
free-form `metadata` bag only the `"error"` entry written by the
orchestrator is modelled. -/
structure Workflow where
  id : String
  title : String
  description : String
  query : String
  tasks : List (String × Task)
  status : WorkflowStatus
  results : List (String × String)
  created_at : String
  started_at : Option String
  completed_at : Option String
  metadataError : Option String
deriving DecidableEq, Repr

/-- Boolean membership in a list of strings (Python `in` on a set of ids). -/
def memb (a : String) : List String → Bool
  | [] => false
  | x :: xs => if x = a then true else memb a xs

/-- Dict lookup on an association list (first binding wins, as in a Python
dict where keys are unique). -/
def getAssoc (l : List (String × Task)) (k : String) : Option Task :=
  match l with
  | [] => none
  | (k', t) :: rest => if k' = k then some t else getAssoc rest k

/-- `Workflow.get_task` (`self.tasks.get(task_id)`). -/
def Workflow.get_task (w : Workflow) (tid : String) : Option Task :=
  getAssoc w.tasks tid

/-- The set comprehension in `get_executable_tasks`:
ids of tasks whose status is COMPLETED. -/
def completedIds (tasks : List (String × Task)) : List String :=
  (tasks.filter (fun p => decide (p.2.status = TaskStatus.completed))).map Prod.fst

/-- The condition of `get_executable_tasks`:
`task.status == PENDING and all(dep in completed_tasks for dep in deps)`. -/
def executableP (tasks : List (String × Task)) (p : String × Task) : Bool :=
  decide (p.2.status = TaskStatus.pending) &&
    p.2.dependencies.all (fun d => memb d (completedIds tasks))

/-- `Workflow.get_executable_tasks`: the tasks of the map, in map order,
that are PENDING with every dependency id in the completed-id set. -/
def Workflow.get_executable_tasks (w : Workflow) : List Task :=
  (w.tasks.filter (executableP w.tasks)).map Prod.snd

-- ## Helper lemmas about the list fixtures

theorem memb_iff_mem (a : String) (l : List String) : memb a l = true ↔ a ∈ l := by
  induction l with
  | nil => simp [memb]
  | cons x xs ih =>
    simp only [memb]
    by_cases h : x = a
    · subst h
      simp
    · rw [if_neg h, ih]
      simp only [List.mem_cons]
      exact ⟨fun hm => Or.inr hm, fun hm => hm.elim (fun he => absurd he.symm h) id⟩

theorem getAssoc_eq_some_of_mem {l : List (String × Task)} {k : String} {t : Task}
    (hnd : (l.map Prod.fst).Nodup) (hmem : (k, t) ∈ l) :
    getAssoc l k = some t := by
  induction l with
  | nil => simp at hmem
  | cons p rest ih =>
    simp only [List.map_cons, List.nodup_cons] at hnd
    rcases List.mem_cons.mp hmem with h | h
    · subst h
      simp [getAssoc]
    · have hk : p.1 ≠ k := by
        intro hkk
        exact hnd.1 (hkk ▸ (List.mem_map.mpr ⟨(k, t), h, rfl⟩))
      obtain ⟨k', t'⟩ := p
      simp only [getAssoc, if_neg hk]
      exact ih hnd.2 h

theorem mem_of_getAssoc_eq_some {l : List (String × Task)} {k : String} {t : Task}
    (h : getAssoc l k = some t) : (k, t) ∈ l := by
  induction l with
  | nil => simp [getAssoc] at h
  | cons p rest ih =>
    obtain ⟨k', t'⟩ := p
    simp only [getAssoc] at h
    by_cases hk : k' = k
    · rw [if_pos hk] at h
      subst hk
      injection h with h2
      subst h2
      exact List.mem_cons_self _ _
    · rw [if_neg hk] at h
      exact List.mem_cons_of_mem _ (ih h)

theorem mem_completedIds_iff {tasks : List (String × Task)} {d : String}
    (hnd : (tasks.map Prod.fst).Nodup) :
    d ∈ completedIds tasks ↔
      ∃ t', getAssoc tasks d = some t' ∧ t'.status = TaskStatus.completed := by
  constructor
  · intro h
    obtain ⟨p, hp, hfst⟩ := List.mem_map.mp h
    have hfilt := List.mem_filter.mp hp
    have hstat : p.2.status = TaskStatus.completed := by
      have := hfilt.2
      simpa [decide_eq_true_eq] using this
    refine ⟨p.2, ?_, hstat⟩
    have : (d, p.2) ∈ tasks := by
      have : p = (d, p.2) := by
        obtain ⟨a, b⟩ := p
        simp only at hfst
        simp [hfst]
      exact this ▸ hfilt.1
    exact getAssoc_eq_some_of_mem hnd this
  · rintro ⟨t', hget, hstat⟩
    have hmem : (d, t') ∈ tasks := mem_of_getAssoc_eq_some hget
    exact List.mem_map.mpr ⟨(d, t'),
      List.mem_filter.mpr ⟨hmem, by simp [hstat]⟩, rfl⟩

theorem completedIds_subset_keys {tasks : List (String × Task)} {d : String}
    (h : d ∈ completedIds tasks) : ∃ p ∈ tasks, p.1 = d := by
  obtain ⟨p, hp, hfst⟩ := List.mem_map.mp h
  exact ⟨p, List.mem_filter.mp hp |>.1, hfst⟩

-- ## Orchestrator (`orchestrator.py`)

/-- The `input=` argument of the `Runner.run` call in
`WorkflowOrchestrator._execute_task`: exactly `task.description`. -/
def executorInput (t : Task) : String :=
  t.description

/-- In-place mutation of the task object bound at key `k` of the task dict,
seen through the dict: replace the value at `k`. -/
def updateTask (tasks : List (String × Task)) (k : String) (t2 : Task) :
    List (String × Task) :=
  tasks.map fun p => if p.1 = k then (k, t2) else p

/-- Python dict assignment `d[k] = v`: overwrite in place when the key
exists, else append (insertion order). -/
def setAssoc (l : List (String × String)) (k v : String) : List (String × String) :=
  if l.any (fun p => p.1 = k) then
    l.map fun p => if p.1 = k then (k, v) else p
  else
    l ++ [(k, v)]

/-- The mutation `_execute_task` performs on the task object, together with
the `final_output` when the executor call succeeds: mark RUNNING and stamp
`started_at`; on success store the result, mark COMPLETED and stamp
`completed_at`; on an exception mark FAILED and store `{"error": str(e)}`
in `task.result` (the failure branch does not touch `completed_at`). -/
def runTask (exec : String → String → Except String String) (now : String)
    (t : Task) : Task × Option String :=
  let t1 := { t with status := TaskStatus.running, started_at := some now }
  match exec t1.agent_id (executorInput t1) with
  | .ok out =>
    ({ t1 with result := some (.output out), status := TaskStatus.completed,
               completed_at := some now }, some out)
  | .error e =>
    ({ t1 with status := TaskStatus.failed, result := some (.errorObj e) }, none)

/-- `WorkflowOrchestrator._execute_task` on the workflow: mutate the task
bound at key `k`, and on success also store the output in
`workflow.results[task.id]`. -/
def execute_task (exec : String → String → Except String String) (now : String)
    (w : Workflow) (k : String) (t : Task) : Workflow :=
  let r := runTask exec now t
  { w with
    tasks := updateTask w.tasks k r.1
    results := match r.2 with
      | some out => setAssoc w.results r.1.id out
      | none => w.results }

/-- `completed_count` of the main loop. -/
def completedCount (w : Workflow) : Nat :=
  w.tasks.countP fun p => decide (p.2.status = TaskStatus.completed)

/-- Number of PENDING tasks (the loop's termination measure). -/
def pendingCount (w : Workflow) : Nat :=
  w.tasks.countP fun p => decide (p.2.status = TaskStatus.pending)

/-- The `while True` loop of `WorkflowOrchestrator.execute`.  `fuel` bounds
the number of iterations: `none` models an execution that is still looping
after `fuel` iterations (in Python, the `await asyncio.sleep(0.1)` branch
re-polling forever).  One iteration: compute the executable tasks; if none,
either finish COMPLETED (all tasks completed), or finish FAILED with
`metadata["error"] = "Workflow execution deadlocked"` (no task RUNNING), or
poll again; otherwise run the first executable task sequentially. -/
def executeLoop (exec : String → String → Except String String) (now : String) :
    Nat → Workflow → Option Workflow
  | 0, _ => none
  | fuel + 1, w =>
    match w.tasks.filter (executableP w.tasks) with
    | [] =>
      if completedCount w = w.tasks.length then
        some { w with status := WorkflowStatus.completed, completed_at := some now }
      else if w.tasks.all (fun p => !(decide (p.2.status = TaskStatus.running))) then
        some { w with status := WorkflowStatus.failed,
                      metadataError := some "Workflow execution deadlocked" }
      else
        executeLoop exec now fuel w
    | (k, t) :: _ => executeLoop exec now fuel (execute_task exec now w k t)

/-- The dictionary returned by `WorkflowOrchestrator._create_output`
(its nested `metadata` dict flattened into fields). -/
structure WorkflowOutput where
  workflow_id : String
  status : String
  results : List (String × String)
  title : String
  description : String
  query : String
  created_at : String
  started_at : Option String
  completed_at : Option String
  error : Option String
deriving DecidableEq, Repr

/-- The `.value` string of a `WorkflowStatus` member. -/
def workflowStatusValue : WorkflowStatus → String
  | .planning => "planning"
  | .ready => "ready"
  | .running => "running"
  | .paused => "paused"
  | .completed => "completed"
  | .failed => "failed"

/-- `WorkflowOrchestrator._create_output`. -/
def createOutput (w : Workflow) : WorkflowOutput :=
  { workflow_id := w.id
    status := workflowStatusValue w.status
    results := w.results
    title := w.title
    description := w.description
    query := w.query
    created_at := w.created_at
    started_at := w.started_at
    completed_at := w.completed_at
    error := w.metadataError }

/-- `WorkflowOrchestrator.execute` (no resource manager, no telemetry
collector, as when the orchestrator is constructed without them): mark the
workflow RUNNING, stamp `started_at`, run the main loop, and report via
`_create_output`. -/
def execute (exec : String → String → Except String String) (now : String)
    (fuel : Nat) (w : Workflow) : Option WorkflowOutput :=
  let w1 := { w with status := WorkflowStatus.running, started_at := some now }
  (executeLoop exec now fuel w1).map createOutput

-- ## Dependency validation (`controller.py`, `_detect_dependency_cycles`)

/-- The mutable state of the nested `dfs` of
`WorkflowController._detect_dependency_cycles`: the `visited` set, the
`in_progress` recursion-stack set, and the `back_edges` list, all shared
across the outer loop. -/
structure DfsSt where
  visited : List String
  inProg : List String
  backEdges : List String
deriving DecidableEq, Repr

/-- `set.remove` on the in-progress set (elements are unique). -/
def rem (a : String) : List String → List String
  | [] => []
  | x :: xs => if x = a then xs else x :: rem a xs

/-- The `for dep_id in task.dependencies` loop of the nested `dfs` of
`_detect_dependency_cycles`: explore each dependency with `child` (the
recursive `dfs` call one level deeper); on the first child reporting a
cycle, append the current `task_id` to `back_edges` and propagate. -/
def dfsDeps (child : DfsSt → String → DfsSt × Bool × Option String)
    (tid : String) : DfsSt → List String → DfsSt × Bool × Option String
  | st, [] => (st, false, none)
  | st, dep :: rest =>
    match child st dep with
    | (st', true, cs) =>
      ({ st' with backEdges := st'.backEdges ++ [tid] }, true, cs)
    | (st', false, _) => dfsDeps child tid st' rest

/-- The nested `dfs(task_id)` of `_detect_dependency_cycles`.  A node on the
recursion stack means a cycle (returns `(true, revisited id)`); a visited
node is skipped; otherwise the node is pushed on the stack, its task's
dependencies are explored in list order (a dangling id has no task and no
children), and on a cycle-free return it is moved to `visited`.  The
membership tests come before `fuel` is consumed, so `fuel` only bounds the
exploration depth (Python has no such bound; the recursion depth is at most
the number of tasks plus one, so the fuel used by `detectCycles` below is
never exhausted). -/
def dfs (tasks : List (String × Task)) :
    Nat → DfsSt → String → DfsSt × Bool × Option String
  | 0, st, tid =>
    if memb tid st.inProg then (st, true, some tid)
    else if memb tid st.visited then (st, false, none)
    else (st, false, none)
  | fuel' + 1, st, tid =>
    if memb tid st.inProg then (st, true, some tid)
    else if memb tid st.visited then (st, false, none)
    else
      let st1 := { st with inProg := tid :: st.inProg }
      match getAssoc tasks tid with
      | none =>
        ({ st1 with visited := tid :: st1.visited, inProg := rem tid st1.inProg },
          false, none)
      | some task =>
        match dfsDeps (fun st2 dep => dfs tasks fuel' st2 dep) tid st1
            task.dependencies with
        | (st2, true, cs) => (st2, true, cs)
        | (st2, false, _) =>
          ({ st2 with visited := tid :: st2.visited, inProg := rem tid st2.inProg },
            false, none)

/-- `list.index`: index of the first occurrence. -/
def idxOf (l : List String) (a : String) : Nat :=
  match l with
  | [] => 0
  | x :: xs => if x = a then 0 else idxOf xs a + 1

/-- The `for task_id in workflow.tasks` loop of
`_detect_dependency_cycles`: run `dfs` from each key in map order; on the
first cycle, reconstruct `cycle_path = back_edges + [cycle_start]` rotated
to start at the first occurrence of `cycle_start`, with `cycle_start`
appended. -/
def detectGo (tasks : List (String × Task)) (fuel : Nat) :
    DfsSt → List String → Bool × Option (List String)
  | _, [] => (false, none)
  | st, tid :: rest =>
    match dfs tasks fuel st tid with
    | (st', true, some cstart) =>
      let cyclePath := st'.backEdges ++ [cstart]
      let si := idxOf cyclePath cstart
      (true, some (cyclePath.drop si ++ cyclePath.take si ++ [cstart]))
    | (_, true, none) => (true, none)
    | (st', false, _) => detectGo tasks fuel st' rest

/-- `WorkflowController._detect_dependency_cycles`, with exploration fuel
`tasks.length + 1` (an upper bound on the DFS depth, see `dfs`). -/
def detectCycles (w : Workflow) : Bool × Option (List String) :=
  detectGo w.tasks (w.tasks.length + 1) ⟨[], [], []⟩ (w.tasks.map Prod.fst)

-- ## Concrete fixtures used by witnesses and counterexamples

/-- A concrete task value for witnesses (a task as it sits in a workflow). -/
def sampleTask (id : String) (deps : List String) (st : TaskStatus) : Task :=
  { id := id
    title := "Title " ++ id
    description := "Description " ++ id
    agent_id := "research_agent"
    dependencies := deps
    status := st
    result := none
    created_at := "2025-01-01T00:00:00"
    started_at := none
    completed_at := none
    metadata := [] }

/-- Two-task workflow: `a` COMPLETED, `b` PENDING depending on `a`. -/
def wfReady : Workflow :=
  { id := "w1"
    title := "Test Workflow"
    description := "A workflow"
    query := "test query"
    tasks := [("a", sampleTask "a" [] .completed), ("b", sampleTask "b" ["a"] .pending)]
    status := .ready
    results := []
    created_at := "2025-01-01T00:00:00"
    started_at := none
    completed_at := none
    metadataError := none }

-- ## Claim C9

/-- Claim C9: for every task `t` (every task has a non-empty id: ids come
from `uuid4` or a caller-supplied non-empty string, the empty string being
falsy in `id or str(uuid.uuid4())`), `Task.from_dict(t.to_dict())`
reconstructs a task whose id, title, description, agent_id, dependencies,
status, result, created_at, started_at, completed_at and metadata all equal
those of `t`. -/
theorem C9_task_dict_roundtrip (t : Task) (fresh now : String) (h : t.id ≠ "") :
    Task.fromDict (Task.toDict t) fresh now = some t := by
  obtain ⟨tid, ttitle, tdesc, tagent, tdeps, tstatus, tres, tcr, tst, tco, tmd⟩ := t
  simp only [ne_eq] at h
  by_cases hd : tdeps = ([] : List String)
  · subst hd
    cases tstatus <;>
      simp [Task.toDict, Task.fromDict, mkTask, statusValue, statusOfValue, h]
  · cases tstatus <;>
      simp [Task.toDict, Task.fromDict, mkTask, statusValue, statusOfValue, h, hd]

/-- Witness for C9 at a concrete task. -/
theorem C9_task_dict_roundtrip_witness :
    Task.fromDict (Task.toDict (sampleTask "a" [] .completed)) "u-1" "2025-02-02" =
      some (sampleTask "a" [] .completed) :=
  C9_task_dict_roundtrip (sampleTask "a" [] .completed) "u-1" "2025-02-02" (by decide)

-- ## Claim C1

/-- Claim C1: for a workflow (whose task-dict keys are distinct, as Python
dict keys are), `get_executable_tasks` returns exactly the tasks that are
PENDING and whose every dependency id maps to a COMPLETED task of
`workflow.tasks`; tasks in any other status are never returned, and the
returned list follows workflow task-map insertion order (it is a sublist of
the task-map values). -/
theorem C1_get_executable_tasks_correct (w : Workflow)
    (hnd : (w.tasks.map Prod.fst).Nodup) :
    w.get_executable_tasks.Sublist (w.tasks.map Prod.snd) ∧
    ∀ t : Task, t ∈ w.get_executable_tasks ↔
      ((∃ k, (k, t) ∈ w.tasks) ∧ t.status = TaskStatus.pending ∧
        ∀ d ∈ t.dependencies,
          ∃ t', w.get_task d = some t' ∧ t'.status = TaskStatus.completed) := by
  constructor
  · exact List.Sublist.map _ (List.filter_sublist _)
  · intro t
    constructor
    · intro ht
      obtain ⟨p, hp, hpt⟩ := List.mem_map.mp ht
      obtain ⟨k, t'⟩ := p
      cases hpt
      have hm := List.mem_filter.mp hp
      have hpred := hm.2
      simp only [executableP, Bool.and_eq_true, decide_eq_true_eq,
        List.all_eq_true] at hpred
      refine ⟨⟨k, hm.1⟩, hpred.1, ?_⟩
      intro d hd
      have hc := hpred.2 d hd
      rw [memb_iff_mem] at hc
      exact (mem_completedIds_iff hnd).mp hc
    · rintro ⟨⟨k, hk⟩, hpend, hdeps⟩
      refine List.mem_map.mpr ⟨(k, t), List.mem_filter.mpr ⟨hk, ?_⟩, rfl⟩
      simp only [executableP, Bool.and_eq_true, decide_eq_true_eq,
        List.all_eq_true]
      exact ⟨hpend, fun d hd =>
        (memb_iff_mem d _).mpr ((mem_completedIds_iff hnd).mpr (hdeps d hd))⟩

/-- Witness for C1 at a concrete two-task workflow. -/
theorem C1_get_executable_tasks_correct_witness :
    wfReady.get_executable_tasks.Sublist (wfReady.tasks.map Prod.snd) ∧
    ∀ t : Task, t ∈ wfReady.get_executable_tasks ↔
      ((∃ k, (k, t) ∈ wfReady.tasks) ∧ t.status = TaskStatus.pending ∧
        ∀ d ∈ t.dependencies,
          ∃ t', wfReady.get_task d = some t' ∧ t'.status = TaskStatus.completed) :=
  C1_get_executable_tasks_correct wfReady (by decide)

-- ## Claim C2

/-- Deadlocked workflow fixture: `a` FAILED, `b` PENDING depending on `a`. -/
def wfDead : Workflow :=
  { wfReady with
    tasks := [("a", sampleTask "a" [] .failed), ("b", sampleTask "b" ["a"] .pending)] }

/-- Claim C2: whenever the loop reaches a state with no executable task,
not all tasks COMPLETED, and no task RUNNING, `WorkflowOrchestrator.execute`
leaves the loop in that very iteration (whatever fuel remains), with
workflow status FAILED and the deadlock indication stored in
`workflow.metadata["error"]`. -/
theorem C2_deadlock_terminates (w : Workflow)
    (h1 : w.get_executable_tasks = [])
    (h2 : ¬ ∀ p ∈ w.tasks, p.2.status = TaskStatus.completed)
    (h3 : ∀ p ∈ w.tasks, p.2.status ≠ TaskStatus.running)
    (exec : String → String → Except String String) (now : String) (fuel : Nat) :
    ∃ w', executeLoop exec now (fuel + 1) w = some w' ∧
      w'.status = WorkflowStatus.failed ∧
      w'.metadataError = some "Workflow execution deadlocked" := by
  have hfilter : w.tasks.filter (executableP w.tasks) = [] := by
    have hmap := h1
    unfold Workflow.get_executable_tasks at hmap
    exact List.map_eq_nil_iff.mp hmap
  have hcount : completedCount w ≠ w.tasks.length := by
    intro hc
    apply h2
    intro p hp
    have hall := List.countP_eq_length.mp hc p hp
    simpa using hall
  have hall : w.tasks.all (fun p => !(decide (p.2.status = TaskStatus.running))) = true := by
    rw [List.all_eq_true]
    intro p hp
    simp [h3 p hp]
  refine ⟨({ w with status := WorkflowStatus.failed, metadataError := some "Workflow execution deadlocked" } : Workflow), ?_, rfl, rfl⟩
  simp [executeLoop, hfilter, hcount, hall]

/-- Witness for C2: the fixture with a FAILED dependency deadlocks. -/
theorem C2_deadlock_terminates_witness :
    ∃ w', executeLoop (fun _ s => .ok s) "2025-01-02" 1 wfDead = some w' ∧
      w'.status = WorkflowStatus.failed ∧
      w'.metadataError = some "Workflow execution deadlocked" :=
  C2_deadlock_terminates wfDead (by decide) (by decide) (by decide)
    (fun _ s => .ok s) "2025-01-02" 0

-- ## Claim C7

theorem runTask_status_not_running (exec : String → String → Except String String)
    (now : String) (t : Task) :
    (runTask exec now t).1.status ≠ TaskStatus.running := by
  unfold runTask
  rcases hx : exec t.agent_id
      (executorInput { t with status := TaskStatus.running, started_at := some now })
    with out | e <;> simp [hx]

theorem runTask_status_not_pending (exec : String → String → Except String String)
    (now : String) (t : Task) :
    (runTask exec now t).1.status ≠ TaskStatus.pending := by
  unfold runTask
  rcases hx : exec t.agent_id
      (executorInput { t with status := TaskStatus.running, started_at := some now })
    with out | e <;> simp [hx]

theorem execute_task_no_running (exec : String → String → Except String String)
    (now : String) (w : Workflow) (k : String) (t : Task)
    (h : ∀ p ∈ w.tasks, p.2.status ≠ TaskStatus.running) :
    ∀ p ∈ (execute_task exec now w k t).tasks, p.2.status ≠ TaskStatus.running := by
  intro p hp
  unfold execute_task updateTask at hp
  simp only [List.mem_map] at hp
  obtain ⟨q, hq, hqe⟩ := hp
  by_cases hk : q.1 = k
  · rw [if_pos hk] at hqe
    rw [← hqe]
    exact runTask_status_not_running exec now t
  · rw [if_neg hk] at hqe
    rw [← hqe]
    exact h q hq

theorem countP_updateTask_le (l : List (String × Task)) (k : String) (t2 : Task)
    (h2 : t2.status ≠ TaskStatus.pending) :
    (updateTask l k t2).countP (fun p => decide (p.2.status = TaskStatus.pending)) ≤
      l.countP (fun p => decide (p.2.status = TaskStatus.pending)) := by
  have h0 : decide (t2.status = TaskStatus.pending) = false := by simp [h2]
  unfold updateTask
  induction l with
  | nil => simp
  | cons p rest ih =>
    simp only [List.map_cons, List.countP_cons]
    by_cases hk : p.1 = k
    · rw [if_pos hk]
      simp [h0, -List.countP_map]
      omega
    · rw [if_neg hk]
      omega

theorem countP_updateTask_lt (l : List (String × Task)) (k : String) (t t2 : Task)
    (hmem : (k, t) ∈ l) (hp : t.status = TaskStatus.pending)
    (h2 : t2.status ≠ TaskStatus.pending) :
    (updateTask l k t2).countP (fun p => decide (p.2.status = TaskStatus.pending)) <
      l.countP (fun p => decide (p.2.status = TaskStatus.pending)) := by
  have hc2 : decide (t2.status = TaskStatus.pending) = false := by simp [h2]
  have hct : decide (t.status = TaskStatus.pending) = true := by simp [hp]
  induction l with
  | nil => simp at hmem
  | cons p rest ih =>
    rcases List.mem_cons.mp hmem with hhd | htl
    · subst hhd
      unfold updateTask
      simp only [List.map_cons, List.countP_cons, if_pos rfl]
      have hle := countP_updateTask_le rest k t2 h2
      unfold updateTask at hle
      simp [hc2, hct, -List.countP_map]
      omega
    · unfold updateTask
      simp only [List.map_cons, List.countP_cons]
      have hlt := ih htl
      unfold updateTask at hlt
      by_cases hk : p.1 = k
      · rw [if_pos hk]
        simp [hc2, -List.countP_map]
        omega
      · rw [if_neg hk]
        omega

theorem execute_task_pendingCount_lt (exec : String → String → Except String String)
    (now : String) (w : Workflow) (k : String) (t : Task)
    (hmem : (k, t) ∈ w.tasks) (hp : t.status = TaskStatus.pending) :
    pendingCount (execute_task exec now w k t) < pendingCount w := by
  unfold pendingCount execute_task
  exact countP_updateTask_lt w.tasks k t _ hmem hp (runTask_status_not_pending exec now t)

theorem executeLoop_total (exec : String → String → Except String String)
    (now : String) :
    ∀ fuel w, (∀ p ∈ w.tasks, p.2.status ≠ TaskStatus.running) →
      pendingCount w < fuel → (executeLoop exec now fuel w).isSome := by
  intro fuel
  induction fuel with
  | zero => exact fun w _ hlt => absurd hlt (Nat.not_lt_zero _)
  | succ f ih =>
    intro w hnr hlt
    cases hfe : w.tasks.filter (executableP w.tasks) with
    | nil =>
      by_cases hc : completedCount w = w.tasks.length
      · simp [executeLoop, hfe, hc]
      · have hall : w.tasks.all
            (fun p => !(decide (p.2.status = TaskStatus.running))) = true := by
          rw [List.all_eq_true]
          intro p hp
          simp [hnr p hp]
        simp [executeLoop, hfe, hc, hall]
    | cons kt rest =>
      obtain ⟨k, t⟩ := kt
      have hin : (k, t) ∈ w.tasks.filter (executableP w.tasks) := by
        rw [hfe]
        exact List.mem_cons_self _ _
      have hmem : (k, t) ∈ w.tasks := List.mem_of_mem_filter hin
      have hpend : t.status = TaskStatus.pending := by
        have := List.of_mem_filter hin
        simp only [executableP, Bool.and_eq_true, decide_eq_true_eq] at this
        exact this.1
      have hstep : executeLoop exec now (f + 1) w =
          executeLoop exec now f (execute_task exec now w k t) := by
        simp [executeLoop, hfe]
      rw [hstep]
      apply ih
      · exact execute_task_no_running exec now w k t hnr
      · have h1 := execute_task_pendingCount_lt exec now w k t hmem hpend
        omega

/-- Claim C7: for every workflow entering the loop (no task already
RUNNING: the orchestrator itself only holds RUNNING transiently inside
`_execute_task`) and EVERY behavior of the Task Executor, including raising
(`.error`), `WorkflowOrchestrator.execute` returns an execution report: the
run is total once the iteration budget exceeds the number of pending tasks,
with task failures captured in task state rather than propagated. -/
theorem C7_execute_returns_report (exec : String → String → Except String String)
    (now : String) (fuel : Nat) (w : Workflow)
    (h1 : ∀ p ∈ w.tasks, p.2.status ≠ TaskStatus.running)
    (h2 : pendingCount w < fuel) :
    ∃ out, execute exec now fuel w = some out := by
  have htot := executeLoop_total exec now fuel
    { w with status := WorkflowStatus.running, started_at := some now } h1 h2
  obtain ⟨w', hw'⟩ := Option.isSome_iff_exists.mp htot
  exact ⟨createOutput w', by simp [execute, hw']⟩

/-- Witness for C7: a run of the two-task fixture with an executor that
always raises still returns a report. -/
theorem C7_execute_returns_report_witness :
    ∃ out, execute (fun _ _ => .error "boom") "2025-01-02" 2 wfReady = some out :=
  C7_execute_returns_report (fun _ _ => .error "boom") "2025-01-02" 2 wfReady
    (by decide) (by decide)

-- ## Claim C4

/-- Counterexample to C4 as stated: running a task whose executor raises
leaves the task FAILED with `task.result = {"error": "boom"}` — a FAILED
task does have a value stored in `task.result` (the code has no separate
`task.error` attribute; `orchestrator.py` line 280 writes the error dict
into `task.result`). -/
theorem C4_counterexample_failed_task_has_result :
    (runTask (fun _ _ => .error "boom") "2025-01-02"
        (sampleTask "b" ["a"] .pending)).1.status = TaskStatus.failed ∧
    (runTask (fun _ _ => .error "boom") "2025-01-02"
        (sampleTask "b" ["a"] .pending)).1.result =
      some (.errorObj "boom") := by
  constructor <;> rfl

/-- Claim C4 (amended): `task.result` is set on COMPLETED with the
executor's output, and on FAILED with the structured failure info
`{"error": str(e)}`; there is no separate `task.error` attribute, so the
two outcomes are distinguished by the constructor stored in `task.result`,
not by mutual exclusion of two fields. -/
theorem C4_amended_result_per_branch (exec : String → String → Except String String)
    (now : String) (t : Task) :
    match exec t.agent_id t.description with
    | .ok out =>
      (runTask exec now t).1.status = TaskStatus.completed ∧
        (runTask exec now t).1.result = some (.output out)
    | .error e =>
      (runTask exec now t).1.status = TaskStatus.failed ∧
        (runTask exec now t).1.result = some (.errorObj e) := by
  rcases hx : exec t.agent_id t.description with out | e <;>
    simp [runTask, executorInput, hx]

-- ## Claim C10

/-- Claim C10: the failure branch of `_execute_task` does not touch
`completed_at` (it keeps the task's previous value, `None` if never set);
`completed_at` is stamped only on the success branch. -/
theorem C10_completed_at_only_on_success
    (exec : String → String → Except String String) (now : String) (t : Task) :
    match exec t.agent_id t.description with
    | .error _ => (runTask exec now t).1.completed_at = t.completed_at
    | .ok _ => (runTask exec now t).1.completed_at = some now := by
  rcases hx : exec t.agent_id t.description with out | e <;>
    simp [runTask, executorInput, hx]

-- ## Claim C5

/-- A completed dependency holding a result, and a chain workflow for the
executor-input claims. -/
def taskADone : Task :=
  { sampleTask "a" [] .completed with result := some (.output "RESULT-A") }

/-- Workflow where `b` (PENDING) depends on `a` (COMPLETED with a result). -/
def wfChain : Workflow :=
  { wfReady with tasks := [("a", taskADone), ("b", sampleTask "b" ["a"] .pending)] }

/-- The input construction claimed by the spec ("concatenating: task
title/description, plus for every dependency id, that dependency's
title/result").  This definition follows the spec's words, for comparison
with the call-site input `executorInput` taken from the source. -/
def specExecutorInput (w : Workflow) (t : Task) : String :=
  t.title ++ "\n" ++ t.description ++
    String.join (t.dependencies.map fun d =>
      match getAssoc w.tasks d with
      | some dt =>
        "\n" ++ dt.title ++ ": " ++
          (match dt.result with
           | some (.output s) => s
           | some (.errorObj m) => m
           | none => "")
      | none => "")

/-- Counterexample to C5 as stated: the input handed to the executor for
task `b` is exactly `b.description`; it is not the spec's concatenation —
in particular the dependency's title and result are absent from it
(`orchestrator.py` line 234: `input=task.description`). -/
theorem C5_counterexample_input_lacks_dependency_output :
    executorInput (sampleTask "b" ["a"] .pending) = "Description b" ∧
    executorInput (sampleTask "b" ["a"] .pending) ≠
      specExecutorInput wfChain (sampleTask "b" ["a"] .pending) := by
  constructor <;> decide

/-- Claim C5 (amended): the input passed to the Task Executor is exactly
`task.description`; dependency titles and results are not threaded in, so
the whole of `_execute_task` depends on the executor only through its value
at `(task.agent_id, task.description)`. -/
theorem C5_amended_input_is_description
    (exec exec' : String → String → Except String String) (now : String)
    (w : Workflow) (k : String) (t : Task)
    (h : exec t.agent_id t.description = exec' t.agent_id t.description) :
    execute_task exec now w k t = execute_task exec' now w k t := by
  simp only [execute_task, runTask, executorInput]
  rw [h]

/-- Witness for C5 (amended): two executors that agree at
`(agent_id, description)` but differ elsewhere produce the same step. -/
theorem C5_amended_input_is_description_witness :
    execute_task (fun _ _ => Except.ok "same") "2025-01-02" wfChain "b"
        (sampleTask "b" ["a"] .pending) =
      execute_task
        (fun _ i => if i = "Description b" then Except.ok "same"
                    else Except.error "different")
        "2025-01-02" wfChain "b" (sampleTask "b" ["a"] .pending) :=
  C5_amended_input_is_description (fun _ _ => Except.ok "same")
    (fun _ i => if i = "Description b" then Except.ok "same"
                else Except.error "different")
    "2025-01-02" wfChain "b" (sampleTask "b" ["a"] .pending) (by rfl)

-- ## Claim C3

/-- Workflow with a single PENDING task whose only dependency id is absent
from the task map. -/
def wfDangling : Workflow :=
  { wfReady with tasks := [("x", sampleTask "x" ["ghost"] .pending)] }

/-- Counterexample to C3 as stated: validation
(`_detect_dependency_cycles`) is pure and reports no cycle for a dangling
reference, so after validation the task still lists `"ghost"` and the
readiness selector never returns it — it does NOT become executable as if
the dependency never existed. -/
theorem C3_counterexample_dangling_not_dropped :
    (sampleTask "x" ["ghost"] .pending).dependencies = ["ghost"] ∧
    detectCycles wfDangling = (false, none) ∧
    Workflow.get_executable_tasks wfDangling = [] := by
  refine ⟨rfl, by decide, by decide⟩

/-- Claim C3 (amended): no validation step removes dangling dependency
ids; a task one of whose dependency ids is bound to no task of the
workflow is never returned by `get_executable_tasks`. -/
theorem C3_amended_dangling_never_executable (w : Workflow) (t : Task) (d : String)
    (hd : d ∈ t.dependencies) (hmiss : ∀ p ∈ w.tasks, p.1 ≠ d) :
    t ∉ w.get_executable_tasks := by
  intro ht
  obtain ⟨p, hp, hpt⟩ := List.mem_map.mp ht
  have hpred := List.of_mem_filter hp
  simp only [executableP, Bool.and_eq_true, decide_eq_true_eq,
    List.all_eq_true] at hpred
  have hcomp := hpred.2 d (by rw [hpt]; exact hd)
  rw [memb_iff_mem] at hcomp
  obtain ⟨q, hq, hqd⟩ := completedIds_subset_keys hcomp
  exact hmiss q hq hqd

/-- Witness for C3 (amended) at the concrete dangling-reference fixture. -/
theorem C3_amended_dangling_never_executable_witness :
    sampleTask "x" ["ghost"] .pending ∉ wfDangling.get_executable_tasks :=
  C3_amended_dangling_never_executable wfDangling (sampleTask "x" ["ghost"] .pending)
    "ghost" (by decide) (by decide)

-- ## Claim C6

/-- Two-task cyclic workflow: `A` depends on `B`, `B` depends on `A`. -/
def wfCycle : Workflow :=
  { wfReady with
    tasks := [("A", sampleTask "A" ["B"] .pending), ("B", sampleTask "B" ["A"] .pending)] }

/-- Counterexample to C6 as stated: on the 2-cycle the reported path is
`["A", "A", "B", "A"]` — the reconstruction in
`_detect_dependency_cycles` (`cycle_path = back_edges + [cycle_start]`
rotated at the first occurrence of `cycle_start`, plus `cycle_start`)
duplicates the start node — so it is neither `[A, B, A]` nor `[B, A, B]`. -/
theorem C6_counterexample_cycle_path :
    detectCycles wfCycle = (true, some ["A", "A", "B", "A"]) ∧
    (detectCycles wfCycle).2 ≠ some ["A", "B", "A"] ∧
    (detectCycles wfCycle).2 ≠ some ["B", "A", "B"] := by
  refine ⟨by decide, by decide, by decide⟩

/-- Claim C6 (amended): for every workflow with exactly two tasks `A` and
`B` (in that map order) where `A` depends on `B` and `B` depends on `A`,
cycle detection reports a cycle and the reported path is
`[A, A, B, A]`: `back_edges` collects `[B, A]` while unwinding, the code
appends the revisited node `A` giving `[B, A, A]`, rotates at the first
occurrence of `A` and appends `A` once more. -/
theorem C6_amended_cycle_path (a b : String) (tA tB : Task) (h : a ≠ b)
    (hA : tA.dependencies = [b]) (hB : tB.dependencies = [a]) (w : Workflow)
    (hw : w.tasks = [(a, tA), (b, tB)]) :
    detectCycles w = (true, some [a, a, b, a]) := by
  have h' : b ≠ a := Ne.symm h
  simp only [detectCycles, hw, List.length_cons, List.length_nil, List.map_cons,
    List.map_nil]
  simp [detectGo, dfs, dfsDeps, memb, getAssoc, rem, idxOf, hA, hB, h, h']

/-- Witness for C6 (amended) at the concrete 2-cycle fixture. -/
theorem C6_amended_cycle_path_witness :
    detectCycles wfCycle = (true, some ["A", "A", "B", "A"]) :=
  C6_amended_cycle_path "A" "B" (sampleTask "A" ["B"] .pending)
    (sampleTask "B" ["A"] .pending) (by decide) rfl rfl wfCycle rfl

-- ## Claim C8: dfs lemmas

theorem rem_cons_self (a : String) (l : List String) : rem a (a :: l) = l := by
  simp [rem]

theorem memb_nil (a : String) : memb a [] = false := rfl

theorem memb_cons_ne (a x : String) (l : List String) (h : x ≠ a) :
    memb a (x :: l) = memb a l := by
  simp [memb, h]

/-- A node already on the recursion stack is reported as a cycle at once,
whatever the fuel. -/
theorem dfs_inprog (tasks : List (String × Task)) (fuel : Nat) (st : DfsSt)
    (tid : String) (h : memb tid st.inProg = true) :
    dfs tasks fuel st tid = (st, true, some tid) := by
  cases fuel <;> simp [dfs, h]

/-- A dependency loop whose children restore the recursion stack restores
the recursion stack when it finds no cycle. -/
theorem dfsDeps_restore (child : DfsSt → String → DfsSt × Bool × Option String)
    (tid : String)
    (hch : ∀ st d st2 c2, child st d = (st2, false, c2) → st2.inProg = st.inProg) :
    ∀ deps st st' c, dfsDeps child tid st deps = (st', false, c) →
      st'.inProg = st.inProg := by
  intro deps
  induction deps with
  | nil =>
    intro st st' c h
    simp only [dfsDeps, Prod.mk.injEq] at h
    rw [← h.1]
  | cons dep rest ih =>
    intro st st' c h
    simp only [dfsDeps] at h
    rcases hc : child st dep with ⟨stc, bc, cc⟩
    rw [hc] at h
    cases bc with
    | true => simp at h
    | false =>
      rw [ih stc st' c h, hch st dep stc cc hc]

/-- `dfs` restores the recursion stack when it finds no cycle. -/
theorem dfs_restore (tasks : List (String × Task)) :
    ∀ fuel st tid st' c, dfs tasks fuel st tid = (st', false, c) →
      st'.inProg = st.inProg := by
  intro fuel
  induction fuel with
  | zero =>
    intro st tid st' c h
    simp only [dfs] at h
    split_ifs at h <;> simp_all [Prod.mk.injEq]
  | succ f ih =>
    intro st tid st' c h
    simp only [dfs] at h
    split_ifs at h with h1 h2
    · simp at h
    · simp only [Prod.mk.injEq] at h
      rw [← h.1]
    · rcases hg : getAssoc tasks tid with _ | task <;> rw [hg] at h <;>
        simp only [] at h
      · simp only [Prod.mk.injEq] at h
        rw [← h.1]
        simp [rem_cons_self]
      · rcases hl : dfsDeps (fun st2 dep => dfs tasks f st2 dep) tid
            { st with inProg := tid :: st.inProg } task.dependencies
          with ⟨st2, b2, c2⟩
        rw [hl] at h
        cases b2 with
        | true => simp at h
        | false =>
          simp only [Prod.mk.injEq] at h
          rw [← h.1]
          have hres := dfsDeps_restore (fun st2 dep => dfs tasks f st2 dep) tid
            (fun st d stc cc hcall => ih st d stc cc hcall) task.dependencies
            { st with inProg := tid :: st.inProg } st2 c2 hl
          simp only [hres]
          exact rem_cons_self tid st.inProg

/-- If `x` is among the dependencies being looped over and `x` is on the
recursion stack, the dependency loop reports a cycle. -/
theorem dfsDeps_self_true (child : DfsSt → String → DfsSt × Bool × Option String)
    (tid x : String)
    (hrest : ∀ st d st2 c2, child st d = (st2, false, c2) → st2.inProg = st.inProg)
    (htrue : ∀ st, memb x st.inProg = true → (child st x).2.1 = true) :
    ∀ deps st, x ∈ deps → memb x st.inProg = true →
      (dfsDeps child tid st deps).2.1 = true := by
  intro deps
  induction deps with
  | nil =>
    intro st hx
    simp at hx
  | cons dep rest ih =>
    intro st hx hst
    simp only [dfsDeps]
    rcases hc : child st dep with ⟨stc, bc, cc⟩
    cases bc with
    | true => simp
    | false =>
      have hdep : dep ≠ x := by
        intro he
        subst he
        have hct := htrue st hst
        rw [hc] at hct
        simp at hct
      have hxr : x ∈ rest := by
        rcases List.mem_cons.mp hx with he | hr
        · exact absurd he.symm hdep
        · exact hr
      have hst' : memb x stc.inProg = true := by
        rw [hrest st dep stc cc hc]
        exact hst
      simpa using ih stc hxr hst'

/-- A node carrying a self-dependency, explored with positive fuel, is
reported as a cycle. -/
theorem dfs_self_true (tasks : List (String × Task)) (x : String) (tx : Task)
    (hga : getAssoc tasks x = some tx) (hself : x ∈ tx.dependencies)
    (f : Nat) (st : DfsSt) (hnp : memb x st.inProg = false)
    (hnv : memb x st.visited = false) :
    (dfs tasks (f + 1) st x).2.1 = true := by
  have hloop := dfsDeps_self_true (fun st2 dep => dfs tasks f st2 dep) x x
    (fun st d stc cc hcall => dfs_restore tasks f st d stc cc hcall)
    (fun st hm => by simp [dfs_inprog tasks f st x hm])
    tx.dependencies { st with inProg := x :: st.inProg } hself (by simp [memb])
  simp only [dfs, hnp, hnv, Bool.false_eq_true, if_false, hga]
  rcases hl : dfsDeps (fun st2 dep => dfs tasks f st2 dep) x
      { st with inProg := x :: st.inProg } tx.dependencies with ⟨st2, b2, c2⟩
  rw [hl] at hloop
  cases b2 with
  | true => simp
  | false => simp at hloop

/-- A dependency loop whose children preserve "x not yet visited"
preserves it when it finds no cycle. -/
theorem dfsDeps_pres_not_visited
    (child : DfsSt → String → DfsSt × Bool × Option String) (x : String)
    (hch : ∀ st d st2 b c2, child st d = (st2, b, c2) → b = false →
      memb x st.visited = false → memb x st2.visited = false) :
    ∀ deps tid st st' c, dfsDeps child tid st deps = (st', false, c) →
      memb x st.visited = false → memb x st'.visited = false := by
  intro deps
  induction deps with
  | nil =>
    intro tid st st' c h hv
    simp only [dfsDeps, Prod.mk.injEq] at h
    rw [← h.1]
    exact hv
  | cons dep rest ih =>
    intro tid st st' c h hv
    simp only [dfsDeps] at h
    rcases hc : child st dep with ⟨stc, bc, cc⟩
    rw [hc] at h
    cases bc with
    | true => simp at h
    | false =>
      exact ih tid stc st' c h (hch st dep stc false cc hc rfl hv)

/-- If `x` has a self-dependency, no cycle-free `dfs` run ever moves `x`
into the visited set (its exploration would have reported a cycle). -/
theorem dfs_pres_not_visited (tasks : List (String × Task)) (x : String)
    (tx : Task) (hga : getAssoc tasks x = some tx)
    (hself : x ∈ tx.dependencies) :
    ∀ fuel st tid st' b c, dfs tasks fuel st tid = (st', b, c) → b = false →
      memb x st.visited = false → memb x st'.visited = false := by
  intro fuel
  induction fuel with
  | zero =>
    intro st tid st' b c h hb hv
    simp only [dfs] at h
    split_ifs at h <;> simp_all [Prod.mk.injEq]
  | succ f ih =>
    intro st tid st' b c h hb hv
    subst hb
    simp only [dfs] at h
    split_ifs at h with h1 h2
    · simp at h
    · simp only [Prod.mk.injEq] at h
      rw [← h.1]
      exact hv
    · rcases hg : getAssoc tasks tid with _ | task <;> rw [hg] at h <;>
        simp only [] at h
      · have htid : tid ≠ x := by
          intro he
          subst he
          rw [hga] at hg
          cases hg
        simp only [Prod.mk.injEq] at h
        rw [← h.1]
        rw [memb_cons_ne x tid st.visited htid]
        exact hv
      · rcases hl : dfsDeps (fun st2 dep => dfs tasks f st2 dep) tid
            { st with inProg := tid :: st.inProg } task.dependencies
          with ⟨st2, b2, c2⟩
        rw [hl] at h
        cases b2 with
        | true => simp at h
        | false =>
          have htid : tid ≠ x := by
            intro he
            subst he
            rw [hga] at hg
            injection hg with hg2
            subst hg2
            have := dfsDeps_self_true (fun st2 dep => dfs tasks f st2 dep) tid tid
              (fun st d stc cc hcall => dfs_restore tasks f st d stc cc hcall)
              (fun st hm => by simp [dfs_inprog tasks f st tid hm])
              tx.dependencies { st with inProg := tid :: st.inProg } hself
              (by simp [memb])
            rw [hl] at this
            simp at this
          have hst2 : memb x st2.visited = false :=
            dfsDeps_pres_not_visited (fun st2 dep => dfs tasks f st2 dep) x
              (fun st d stc b cc hcall hbf hvv => ih st d stc b cc hcall hbf hvv)
              task.dependencies tid { st with inProg := tid :: st.inProg } st2 c2
              hl hv
          simp only [Prod.mk.injEq] at h
          rw [← h.1]
          rw [memb_cons_ne x tid st2.visited htid]
          exact hst2

/-- The outer loop of `_detect_dependency_cycles` reports a cycle whenever
some reachable key `x` carries a self-dependency. -/
theorem detectGo_self_true (tasks : List (String × Task)) (x : String)
    (tx : Task) (hga : getAssoc tasks x = some tx)
    (hself : x ∈ tx.dependencies) (f : Nat) :
    ∀ keys st, x ∈ keys → memb x st.visited = false → st.inProg = [] →
      (detectGo tasks (f + 1) st keys).1 = true := by
  intro keys
  induction keys with
  | nil =>
    intro st hx
    simp at hx
  | cons tid rest ih =>
    intro st hx hv hip
    rcases hd : dfs tasks (f + 1) st tid with ⟨st', b, c⟩
    simp only [detectGo]
    rw [hd]
    cases b with
    | true => cases c <;> simp
    | false =>
      have hv' : memb x st'.visited = false :=
        dfs_pres_not_visited tasks x tx hga hself (f + 1) st tid st' false c hd
          rfl hv
      have hip' : st'.inProg = [] := by
        rw [dfs_restore tasks (f + 1) st tid st' c hd]
        exact hip
      have htid : tid ≠ x := by
        intro he
        subst he
        have hstart := dfs_self_true tasks tid tx hga hself f st
          (by rw [hip]; rfl) hv
        rw [hd] at hstart
        simp at hstart
      have hxr : x ∈ rest := by
        rcases List.mem_cons.mp hx with he | hr
        · exact absurd he.symm htid
        · exact hr
      simpa using ih st' hxr hv' hip'

-- ## Claim C8

/-- Workflow with a single task depending on itself. -/
def wfSelf : Workflow :=
  { wfReady with tasks := [("s", sampleTask "s" ["s"] .pending)] }

/-- Counterexample to C8 as stated: a self-dependency is NOT dropped during
validation — validation is pure, the dependency list still contains the
task's own id afterwards, and `_detect_dependency_cycles` instead reports
the self-loop as a cycle (so `_plan_workflow` marks the workflow FAILED
rather than READY). -/
theorem C8_counterexample_self_dep_not_dropped :
    (sampleTask "s" ["s"] .pending).dependencies = ["s"] ∧
    (detectCycles wfSelf).1 = true := by
  refine ⟨rfl, by decide⟩

/-- Claim C8 (amended): no task of a workflow that passed validation (left
PLANNING for READY, i.e. `_detect_dependency_cycles` reported no cycle) has
its own id in its dependency list — not because self-dependencies are
dropped (nothing drops them), but because a workflow containing one always
fails validation with a cycle report.  The workflow is assumed well-formed
as produced by `Workflow.add_task`: distinct dict keys, each task bound to
its own id. -/
theorem C8_amended_validated_no_self_dep (w : Workflow)
    (hnd : (w.tasks.map Prod.fst).Nodup)
    (hkeys : ∀ p ∈ w.tasks, p.1 = p.2.id)
    (hvalid : (detectCycles w).1 = false) :
    ∀ p ∈ w.tasks, p.2.id ∉ p.2.dependencies := by
  intro p hp hself
  have hkey := hkeys p hp
  have hpair : (p.2.id, p.2) = p := by
    obtain ⟨k, t⟩ := p
    simp only at hkey
    rw [← hkey]
  have hmem : (p.2.id, p.2) ∈ w.tasks := by
    rw [hpair]
    exact hp
  have hga : getAssoc w.tasks p.2.id = some p.2 := getAssoc_eq_some_of_mem hnd hmem
  have hxkeys : p.2.id ∈ w.tasks.map Prod.fst :=
    List.mem_map.mpr ⟨p, hp, hkey⟩
  have htrue := detectGo_self_true w.tasks p.2.id p.2 hga hself w.tasks.length
    (w.tasks.map Prod.fst) ⟨[], [], []⟩ hxkeys rfl rfl
  unfold detectCycles at hvalid
  rw [htrue] at hvalid
  cases hvalid

/-- Witness for C8 (amended): in the validated two-task fixture, the entry
bound at "b" does not list its own id. -/
theorem C8_amended_validated_no_self_dep_witness :
    ("b", sampleTask "b" ["a"] .pending).2.id ∉
      ("b", sampleTask "b" ["a"] .pending).2.dependencies :=
  C8_amended_validated_no_self_dep wfReady (by decide) (by decide) (by decide)
    ("b", sampleTask "b" ["a"] .pending) (by decide)

end Orcs
